import Mathlib

/-
Verification of the geometric state model of `src/gui_jw.py` (segments,
special points, punctures, exact-rational coordinate transforms, endpoint
snapping, orthogonal projection, and snapshot-based undo/redo).

Embedding conventions, stated once here:
* Python `Fraction` is modelled as `ℚ`; `deepcopy` is the identity on pure
  values, so the deep copies in `snapshot`/`restore_state` are dropped.
* Segment / special-point / puncture ids are rendered by the source as the
  strings "L<n>" / "S<n>" / "P<n>"; we keep the underlying counter value `n`
  as a `ℕ` field.  Endpoint labels "L<n>.P0" / "L<n>.P1" become the record
  `EndLabel` (segment id plus a flag selecting p1).
* The canvas size is read by the source from the Tk widget on every call
  (`winfo_width` / `winfo_height`); here it is carried as the state fields
  `w`, `h`, which no modelled operation changes.
* `world_to_screen` is computed by the source in floating point (it is the
  lossy forward transform used only for pixel distances); it is modelled
  exactly over `ℚ`.  `screen_to_world` is integer/`Fraction` arithmetic in
  the source and is modelled verbatim, except that Python
  `round(float(x))` (banker's rounding) is modelled as round-half-to-even
  on the exact rational, `roundHalfEven`.
* The snap-radius test `sqrt(d2) <= max_px` is modelled without square
  roots as `0 ≤ max_px ∧ d2 ≤ max_px ^ 2`, which is equivalent for real
  `max_px` since both sides of the source comparison are the squares'
  nonnegative square roots.
* Rendering-only calls (`redraw`, `render_sidebar`, Tk bindings, clipboard
  and file I/O) are outside the modelled state and are dropped; the
  `_restoring` reentrancy flag is omitted because in this pure model
  `restore_state` can never reenter `push_state`.
* Python stacks (`list.append` / `list.pop`) push and pop at the END of the
  list; the model keeps the same orientation: the top of `history` /
  `future` is the last element of the Lean list.
* Python `//` on the positive operands appearing in `on_resize` agrees with
  `Int` division `/` used here.
-/

namespace GuiJW

/-- Config constant `WORLD_RANGE = 30` of gui_jw.py. -/
def WORLD_RANGE : ℤ := 30

/-- Config constant `BORDER_PADDING_PX = 16` of gui_jw.py. -/
def BORDER_PADDING_PX : ℤ := 16

/-- Config constant `SNAP_PX = 12` of gui_jw.py. -/
def SNAP_PX : ℚ := 12

/-- Config constant `DEFAULT_PX_PER_UNIT = 40` of gui_jw.py. -/
def DEFAULT_PX_PER_UNIT : ℤ := 40

/-- The three interaction modes, source strings "segment", "point", "puncture". -/
inductive Mode where
  | segment
  | point
  | puncture
deriving DecidableEq

/-- A segment record `{id, p0, p1, color}`; the source id string is "L<id>". -/
structure Segment where
  id : ℕ
  p0 : ℚ × ℚ
  p1 : ℚ × ℚ
  color : String := "#111827"
deriving DecidableEq

/-- A special-point record `{id, seg_id, t, xy}`; source id string "S<id>". -/
structure SpecialPoint where
  id : ℕ
  seg_id : ℕ
  t : ℚ
  xy : ℚ × ℚ
deriving DecidableEq

/-- A puncture record `{id, xy}`; source id string "P<id>". -/
structure Puncture where
  id : ℕ
  xy : ℚ × ℚ
deriving DecidableEq

/-- An endpoint label; the source formats it as "L<segId>.P0" or "L<segId>.P1". -/
structure EndLabel where
  segId : ℕ
  isP1 : Bool
deriving DecidableEq

/-- A history snapshot: exactly the ten fields captured by `App.snapshot`
(gui_jw.py lines 198-210).  Note the source does NOT capture
`snap_to_integer`. -/
structure Snapshot where
  mode : Mode
  pending_p0 : Option (ℚ × ℚ)
  segments : List Segment
  special_points : List SpecialPoint
  punctures : List Puncture
  next_seg_id : ℕ
  next_sp_id : ℕ
  next_puncture_id : ℕ
  grid_on : Bool
  chain_mode : Bool
deriving DecidableEq

/-- The mutable session state of `App`: the ten snapshot fields plus the
snap toggle, the pixels-per-unit scale, the canvas size, and the two
history stacks. -/
structure AppState where
  mode : Mode
  pending_p0 : Option (ℚ × ℚ)
  segments : List Segment
  special_points : List SpecialPoint
  punctures : List Puncture
  next_seg_id : ℕ
  next_sp_id : ℕ
  next_puncture_id : ℕ
  grid_on : Bool
  chain_mode : Bool
  snap_to_integer : Bool
  px_per_unit : ℤ
  w : ℤ
  h : ℤ
  history : List Snapshot
  future : List Snapshot
deriving DecidableEq

/-- Helper `dot` of gui_jw.py (line 55), on pairs: `ax*bx + ay*by`. -/
def dot (a b : ℚ × ℚ) : ℚ := a.1 * b.1 + a.2 * b.2

/-- Round to the nearest integer, ties to even: the behaviour of Python
`round` (banker's rounding) applied in `screen_to_world`; the intermediate
`float(x)` conversion of the source is treated as exact. -/
def roundHalfEven (q : ℚ) : ℤ :=
  let n := Int.floor q
  let r := q - n
  if r < 1/2 then n
  else if 1/2 < r then n + 1
  else if n % 2 = 0 then n else n + 1

/-- `App.on_resize` (gui_jw.py lines 152-159): the auto-fit integer
pixels-per-unit computed from the canvas size. -/
def fit_px_per_unit (w h : ℤ) : ℤ :=
  let w2 := max w 2
  let h2 := max h 2
  let usable_w := max (w2 - 2 * BORDER_PADDING_PX) 2
  let usable_h := max (h2 - 2 * BORDER_PADDING_PX) 2
  max 1 (min usable_w usable_h / (2 * WORLD_RANGE))

/-- `App.world_to_screen` (gui_jw.py lines 163-169); source computes in
floating point, modelled exactly over `ℚ`. -/
def world_to_screen (s : AppState) (x y : ℚ) : ℚ × ℚ :=
  let w := max s.w 2
  let h := max s.h 2
  ((w : ℚ) / 2 + x * (s.px_per_unit : ℚ), (h : ℚ) / 2 - y * (s.px_per_unit : ℚ))

/-- The two clamping lines of `App.screen_to_world` for one coordinate
(gui_jw.py lines 190-193): clamp into `[-WORLD_RANGE, WORLD_RANGE]`. -/
def clampW (x : ℚ) : ℚ :=
  let x := if x < -(WORLD_RANGE : ℚ) then -(WORLD_RANGE : ℚ) else x
  if x > (WORLD_RANGE : ℚ) then (WORLD_RANGE : ℚ) else x

/-- The optional snap-to-integer-lattice line of `App.screen_to_world` for
one coordinate (gui_jw.py lines 185-187). -/
def snapInt (flag : Bool) (x : ℚ) : ℚ :=
  if flag then ((roundHalfEven x : ℤ) : ℚ) else x

/-- `App.screen_to_world` (gui_jw.py lines 171-195): exact rational inverse
transform, optional snap to the integer lattice, then clamping to the world
box `[-WORLD_RANGE, WORLD_RANGE]` componentwise. -/
def screen_to_world (s : AppState) (sx sy : ℤ) : ℚ × ℚ :=
  let w := max s.w 2
  let h := max s.h 2
  let x : ℚ := ((2 * sx - w : ℤ) : ℚ) / ((2 * s.px_per_unit : ℤ) : ℚ)
  let y : ℚ := ((h - 2 * sy : ℤ) : ℚ) / ((2 * s.px_per_unit : ℤ) : ℚ)
  (clampW (snapInt s.snap_to_integer x), clampW (snapInt s.snap_to_integer y))

/-- `App.snapshot` (gui_jw.py lines 198-210): the ten captured fields;
`snap_to_integer` is not among them. -/
def snapshot (s : AppState) : Snapshot :=
  { mode := s.mode
    pending_p0 := s.pending_p0
    segments := s.segments
    special_points := s.special_points
    punctures := s.punctures
    next_seg_id := s.next_seg_id
    next_sp_id := s.next_sp_id
    next_puncture_id := s.next_puncture_id
    grid_on := s.grid_on
    chain_mode := s.chain_mode }

/-- `App.restore_state` (gui_jw.py lines 212-228): writes back exactly the
ten snapshot fields; everything else (including `snap_to_integer` and the
stacks) is untouched. -/
def restore_state (s : AppState) (sn : Snapshot) : AppState :=
  { s with
    mode := sn.mode
    pending_p0 := sn.pending_p0
    segments := sn.segments
    special_points := sn.special_points
    punctures := sn.punctures
    next_seg_id := sn.next_seg_id
    next_sp_id := sn.next_sp_id
    next_puncture_id := sn.next_puncture_id
    grid_on := sn.grid_on
    chain_mode := sn.chain_mode }

/-- `App.push_state` (gui_jw.py lines 230-234): append a snapshot of the
current state to `history` and clear `future`.  (The `_restoring` guard is
vacuous in this pure model: `restore_state` never calls `push_state`.) -/
def push_state (s : AppState) : AppState :=
  { s with history := s.history ++ [snapshot s], future := [] }

/-- `App.undo` (gui_jw.py lines 236-243): no-op when `history` has one or
fewer entries, otherwise pop the top onto `future` and restore the new top. -/
def undo (s : AppState) : AppState :=
  if s.history.length ≤ 1 then s
  else
    match s.history.getLast? with
    | none => s
    | some cur =>
      let rest := s.history.dropLast
      match rest.getLast? with
      | none => s
      | some prev => restore_state { s with history := rest, future := s.future ++ [cur] } prev

/-- `App.redo` (gui_jw.py lines 245-252): no-op when `future` is empty,
otherwise pop from `future`, push back onto `history`, and restore it. -/
def redo (s : AppState) : AppState :=
  match s.future.getLast? with
  | none => s
  | some nxt => restore_state { s with history := s.history ++ [nxt], future := s.future.dropLast } nxt

/-- `App.set_mode` (gui_jw.py lines 255-260). -/
def set_mode (s : AppState) (m : Mode) : AppState :=
  let s1 := { s with mode := m }
  if m = Mode.segment then
    if s1.chain_mode then s1 else { s1 with pending_p0 := none }
  else s1

/-- `App.toggle_chain` (gui_jw.py lines 262-269): flip the flag; when the
new flag is on and segments exist the pending point becomes the last
segment's p1, when the new flag is off the pending point is cleared, and
when the flag is on with no segments the pending point is left unchanged. -/
def toggle_chain (s : AppState) : AppState :=
  let s1 := { s with chain_mode := ! s.chain_mode }
  if s1.chain_mode then
    match s1.segments.getLast? with
    | some lastSeg => { s1 with pending_p0 := some lastSeg.p1 }
    | none => s1
  else { s1 with pending_p0 := none }

/-- `App.reset` (gui_jw.py lines 271-284): push the current state, clear all
three collections, reset all three counters to 1, and push the blank state. -/
def reset (s : AppState) : AppState :=
  let s1 := push_state s
  let s2 := { s1 with
    pending_p0 := none
    segments := []
    special_points := []
    punctures := []
    next_seg_id := 1
    next_sp_id := 1
    next_puncture_id := 1 }
  push_state s2

/-- `App.toggle_grid` (gui_jw.py lines 286-288). -/
def toggle_grid (s : AppState) : AppState :=
  { s with grid_on := ! s.grid_on }

/-- `App.toggle_snap` (gui_jw.py lines 381-383). -/
def toggle_snap (s : AppState) : AppState :=
  { s with snap_to_integer := ! s.snap_to_integer }

/-- `App.list_endpoints` (gui_jw.py lines 291-296): both endpoints of every
segment in insertion order, p0 before p1. -/
def list_endpoints : List Segment → List ((ℚ × ℚ) × EndLabel)
  | [] => []
  | seg :: rest =>
    (seg.p0, ⟨seg.id, false⟩) :: (seg.p1, ⟨seg.id, true⟩) :: list_endpoints rest

/-- The squared pixel distance from the query pixel `(sx, sy)` to an
endpoint, via `world_to_screen` (loop body of `nearest_endpoint_within_px`,
gui_jw.py lines 300-302). -/
def d2at (s : AppState) (sx sy : ℤ) (e : (ℚ × ℚ) × EndLabel) : ℚ :=
  let p := world_to_screen s e.1.1 e.1.2
  (p.1 - (sx : ℚ)) ^ 2 + (p.2 - (sy : ℚ)) ^ 2

/-- One iteration of the best-candidate loop of `nearest_endpoint_within_px`
(gui_jw.py lines 300-304): keep the first endpoint whose squared distance is
strictly smaller than the best so far. -/
def snapStep (s : AppState) (sx sy : ℤ)
    (acc : Option ((ℚ × ℚ) × EndLabel × ℚ)) (e : (ℚ × ℚ) × EndLabel) :
    Option ((ℚ × ℚ) × EndLabel × ℚ) :=
  let d2 := d2at s sx sy e
  match acc with
  | none => some (e.1, e.2, d2)
  | some b => if d2 < b.2.2 then some (e.1, e.2, d2) else acc

/-- `App.nearest_endpoint_within_px` (gui_jw.py lines 298-310).  The source
accepts the best candidate when `sqrt(d2) <= max_px`; this is encoded
without square roots as `0 ≤ max_px ∧ d2 ≤ max_px ^ 2`, which is equivalent
over the reals.  The source returns the rooted distance as the third
component; the model returns the squared distance (no caller inspects it). -/
def nearest_endpoint_within_px (s : AppState) (sx sy : ℤ) (max_px : ℚ) :
    Option ((ℚ × ℚ) × EndLabel × ℚ) :=
  match (list_endpoints s.segments).foldl (snapStep s sx sy) none with
  | none => none
  | some b => if 0 ≤ max_px ∧ b.2.2 ≤ max_px ^ 2 then some b else none

/-- The idiom `snapped[0] if snapped else p` used by `handle_segment_click`
for both endpoints (gui_jw.py lines 329-330, 350-351, 359-360). -/
def snap_or (s : AppState) (sx sy : ℤ) (p : ℚ × ℚ) : ℚ × ℚ :=
  match nearest_endpoint_within_px s sx sy SNAP_PX with
  | some b => b.1
  | none => p

/-- The chain-mode-OFF part of `App.handle_segment_click` (gui_jw.py lines
348-379): first click records the pending p0 (optionally snapped); second
click resolves p1, rejects `p0 == p1` (clearing the pending point, with no
store mutation and no snapshot), otherwise appends the segment, increments
the counter, pushes a snapshot, and clears the pending point.  Note the
snapshot is pushed BEFORE `pending_p0` is cleared, exactly as in the
source. -/
def handle_segment_click_nochain (s : AppState) (p : ℚ × ℚ) (sx sy : ℤ) : AppState :=
  match s.pending_p0 with
  | none => { s with pending_p0 := some (snap_or s sx sy p) }
  | some p0 =>
    let p1 := snap_or s sx sy p
    if p0 = p1 then { s with pending_p0 := none }
    else
      let seg : Segment := { id := s.next_seg_id, p0 := p0, p1 := p1 }
      let s1 := { s with next_seg_id := s.next_seg_id + 1, segments := s.segments ++ [seg] }
      let s2 := push_state s1
      { s2 with pending_p0 := none }

/-- `App.handle_segment_click` (gui_jw.py lines 325-379).  When chain mode
is on and segments exist, p0 is forced to the last segment's p1 and the
segment is appended WITHOUT any `p0 == p1` check; the snapshot is pushed
before `pending_p0` is advanced to the new p1, exactly as in the source. -/
def handle_segment_click (s : AppState) (p : ℚ × ℚ) (sx sy : ℤ) : AppState :=
  if s.chain_mode then
    match s.segments.getLast? with
    | some lastSeg =>
      let p0 := lastSeg.p1
      let p1 := snap_or s sx sy p
      let seg : Segment := { id := s.next_seg_id, p0 := p0, p1 := p1 }
      let s1 := { s with next_seg_id := s.next_seg_id + 1, segments := s.segments ++ [seg] }
      let s2 := push_state s1
      { s2 with pending_p0 := some seg.p1 }
    | none => handle_segment_click_nochain s p sx sy
  else handle_segment_click_nochain s p sx sy

/-- The per-segment candidate of the best-projection loop of
`App.handle_point_click` (gui_jw.py lines 391-410, for a segment whose
direction is nonzero): the clamped exact parameter, the projected point,
and its squared pixel distance to the query. -/
def projCand (s : AppState) (q : ℚ × ℚ) (seg : Segment) : Segment × ℚ × (ℚ × ℚ) × ℚ :=
  let v : ℚ × ℚ := (seg.p1.1 - seg.p0.1, seg.p1.2 - seg.p0.2)
  let vv := dot v v
  let q0 : ℚ × ℚ := (q.1 - seg.p0.1, q.2 - seg.p0.2)
  let t_star := dot q0 v / vv
  let t := if t_star < 0 then (0 : ℚ) else if t_star > 1 then (1 : ℚ) else t_star
  let xy : ℚ × ℚ := (seg.p0.1 + t * v.1, seg.p0.2 + t * v.2)
  let sp := world_to_screen s xy.1 xy.2
  let qs := world_to_screen s q.1 q.2
  let d2 := (sp.1 - qs.1) ^ 2 + (sp.2 - qs.2) ^ 2
  (seg, t, xy, d2)

/-- One iteration of the best-projection loop of `App.handle_point_click`
(gui_jw.py lines 390-412): skip degenerate segments, and keep the candidate
with the strictly smallest squared pixel distance to the query. -/
def projStep (s : AppState) (q : ℚ × ℚ)
    (acc : Option (Segment × ℚ × (ℚ × ℚ) × ℚ)) (seg : Segment) :
    Option (Segment × ℚ × (ℚ × ℚ) × ℚ) :=
  let v : ℚ × ℚ := (seg.p1.1 - seg.p0.1, seg.p1.2 - seg.p0.2)
  let vv := dot v v
  if vv = 0 then acc
  else
    match acc with
    | none => some (projCand s q seg)
    | some b =>
      if (projCand s q seg).2.2.2 < b.2.2.2 then some (projCand s q seg) else acc

/-- `App.handle_point_click` (gui_jw.py lines 385-428): early return when
there are no segments; otherwise select the best clamped projection and, on
success, append the special point, increment its counter, and push a
snapshot. -/
def handle_point_click (s : AppState) (q : ℚ × ℚ) : AppState :=
  if s.segments.isEmpty then s
  else
    match s.segments.foldl (projStep s q) none with
    | none => s
    | some best =>
      let sp : SpecialPoint :=
        { id := s.next_sp_id, seg_id := best.1.id, t := best.2.1, xy := best.2.2.1 }
      let s1 := { s with next_sp_id := s.next_sp_id + 1,
                         special_points := s.special_points ++ [sp] }
      push_state s1

/-- `App.handle_puncture_click` (gui_jw.py lines 431-437). -/
def handle_puncture_click (s : AppState) (p : ℚ × ℚ) : AppState :=
  let pu : Puncture := { id := s.next_puncture_id, xy := p }
  let s1 := { s with next_puncture_id := s.next_puncture_id + 1,
                     punctures := s.punctures ++ [pu] }
  push_state s1

/-- `App.on_click` (gui_jw.py lines 313-323): convert the pixel position to
a world point and dispatch on the current mode. -/
def on_click (s : AppState) (sx sy : ℤ) : AppState :=
  let p := screen_to_world s sx sy
  match s.mode with
  | Mode.segment => handle_segment_click s p sx sy
  | Mode.point => handle_point_click s p
  | Mode.puncture => handle_puncture_click s p

/-- A user interaction: a canvas click or one of the key bindings acting on
the modelled state. -/
inductive Op where
  | click (sx sy : ℤ)
  | keyMode (m : Mode)
  | keyReset
  | keyGrid
  | keyChain
  | keySnap
  | keyUndo
  | keyRedo
deriving DecidableEq

/-- Dispatch one interaction, following the bindings of `App.__init__`. -/
def applyOp (s : AppState) : Op → AppState
  | Op.click sx sy => on_click s sx sy
  | Op.keyMode m => set_mode s m
  | Op.keyReset => reset s
  | Op.keyGrid => toggle_grid s
  | Op.keyChain => toggle_chain s
  | Op.keySnap => toggle_snap s
  | Op.keyUndo => undo s
  | Op.keyRedo => redo s

/-- Apply a sequence of interactions in order. -/
def applyOps (s : AppState) (ops : List Op) : AppState :=
  ops.foldl applyOp s

/-- Apply `n` consecutive `undo` calls. -/
def undoN : ℕ → AppState → AppState
  | 0, s => s
  | n + 1, s => undoN n (undo s)

/-- The state built by `App.__init__` (gui_jw.py lines 63-149) for a canvas
of size `w × h`: default mode/toggles, empty collections, counters at 1,
auto-fit scale, and the initial snapshot pushed at the end of `__init__`. -/
def initState (w h : ℤ) : AppState :=
  push_state
    { mode := Mode.segment
      pending_p0 := none
      segments := []
      special_points := []
      punctures := []
      next_seg_id := 1
      next_sp_id := 1
      next_puncture_id := 1
      grid_on := true
      chain_mode := false
      snap_to_integer := true
      px_per_unit := fit_px_per_unit w h
      w := w
      h := h
      history := []
      future := [] }

/-- Whether a segment-mode click completes a segment (chain mode with an
existing segment, or a second click whose resolved p1 differs from the
pending p0) — the condition under which `handle_segment_click` mutates the
store and records a snapshot. -/
def seg_click_completes (s : AppState) (sx sy : ℤ) : Bool :=
  if s.chain_mode && ! s.segments.isEmpty then true
  else
    match s.pending_p0 with
    | some p0 => decide (¬ (snap_or s sx sy (screen_to_world s sx sy) = p0))
    | none => false

/-- Whether a click at `(sx, sy)` is a successful mutating operation in the
sense of the specification: a completed `addSegment`, a successful
`addSpecialPoint`, or an `addPuncture`. -/
def successful_mutating_click (s : AppState) (sx sy : ℤ) : Bool :=
  match s.mode with
  | Mode.segment => seg_click_completes s sx sy
  | Mode.point =>
    (! s.segments.isEmpty) &&
      (s.segments.foldl (projStep s (screen_to_world s sx sy)) none).isSome
  | Mode.puncture => true

/-- A run of clicks each of which is a successful mutating operation in the
state where it happens. -/
def goodRun : AppState → List (ℤ × ℤ) → Bool
  | _, [] => true
  | s, c :: cs => successful_mutating_click s c.1 c.2 && goodRun (on_click s c.1 c.2) cs

/-- Apply a sequence of clicks. -/
def applyClicks (s : AppState) (cs : List (ℤ × ℤ)) : AppState :=
  cs.foldl (fun t c => on_click t c.1 c.2) s

/-- The session state outside the two history stacks: the ten
snapshot-captured fields plus the snap toggle, scale, and canvas size. -/
def stripStacks (s : AppState) : Snapshot × Bool × ℤ × ℤ × ℤ :=
  (snapshot s, s.snap_to_integer, s.px_per_unit, s.w, s.h)

/-- Interactions other than reset, undo and redo — the ones that never
rewind or restart the id counters. -/
def okOp : Op → Bool
  | Op.keyReset => false
  | Op.keyUndo => false
  | Op.keyRedo => false
  | _ => true

/-- The segment-id discipline: every stored id is below the counter, and
ids are strictly increasing in insertion order. -/
def segIdInv (s : AppState) : Prop :=
  (∀ g ∈ s.segments, g.id < s.next_seg_id) ∧
    s.segments.Pairwise (fun a b => a.id < b.id)

/-- The startup state for the default 900 × 680 canvas (auto-fit scale 10),
used as the starting point of the concrete traces below. -/
def ex_s0 : AppState := initState 900 680

/-- `ex_s0` after switching to puncture mode (key [3]); a starting state in
which every click is a successful `addPuncture`. -/
def c4_s0 : AppState := applyOp ex_s0 (Op.keyMode Mode.puncture)

/-- A point-mode state holding the single segment `p0 = (0,0), p1 = (4,0)`
of the specification's first projection example. -/
def exSt1 : AppState :=
  { mode := Mode.point
    pending_p0 := none
    segments := [{ id := 1, p0 := (0, 0), p1 := (4, 0) }]
    special_points := []
    punctures := []
    next_seg_id := 2
    next_sp_id := 1
    next_puncture_id := 1
    grid_on := true
    chain_mode := false
    snap_to_integer := true
    px_per_unit := 10
    w := 900
    h := 680
    history := []
    future := [] }

/-- A point-mode state holding the single segment `p0 = (0,0), p1 = (10,10)`
of the specification's second projection example. -/
def exSt2 : AppState :=
  { exSt1 with segments := [{ id := 1, p0 := (0, 0), p1 := (10, 10) }] }

/-- Helper lemmas about the clamp used by `screen_to_world`. -/
lemma clampW_cases (x : ℚ) :
    clampW x = x ∨ clampW x = -(WORLD_RANGE : ℚ) ∨ clampW x = (WORLD_RANGE : ℚ) := by
  unfold clampW
  by_cases h1 : x < -(WORLD_RANGE : ℚ)
  · rw [if_pos h1]
    by_cases h2 : -(WORLD_RANGE : ℚ) > (WORLD_RANGE : ℚ)
    · rw [if_pos h2]; simp
    · rw [if_neg h2]; simp
  · rw [if_neg h1]
    by_cases h2 : x > (WORLD_RANGE : ℚ)
    · rw [if_pos h2]; simp
    · rw [if_neg h2]; simp

lemma clampW_mem (x : ℚ) :
    -(WORLD_RANGE : ℚ) ≤ clampW x ∧ clampW x ≤ (WORLD_RANGE : ℚ) := by
  have hW : (0 : ℚ) < (WORLD_RANGE : ℚ) := by norm_num [WORLD_RANGE]
  unfold clampW
  by_cases h1 : x < -(WORLD_RANGE : ℚ)
  · rw [if_pos h1]
    by_cases h2 : -(WORLD_RANGE : ℚ) > (WORLD_RANGE : ℚ)
    · rw [if_pos h2]; constructor <;> linarith
    · rw [if_neg h2]; constructor <;> linarith
  · rw [if_neg h1]
    by_cases h2 : x > (WORLD_RANGE : ℚ)
    · rw [if_pos h2]; constructor <;> linarith
    · rw [if_neg h2]; constructor <;> linarith

lemma den_negWR : (-(WORLD_RANGE : ℚ)).den = 1 :=
  of_decide_eq_true (by with_unfolding_all rfl)

lemma den_posWR : ((WORLD_RANGE : ℚ) : ℚ).den = 1 :=
  of_decide_eq_true (by with_unfolding_all rfl)

lemma div_den_dvd (a b : ℤ) : ((((a : ℚ) / (b : ℚ)).den : ℤ)) ∣ b := by
  have h := Rat.den_dvd a b
  rwa [Rat.divInt_eq_div] at h

lemma c7_coord (flag : Bool) (a b : ℤ) :
    (-(WORLD_RANGE : ℚ) ≤ clampW (snapInt flag ((a : ℚ) / (b : ℚ))) ∧
      clampW (snapInt flag ((a : ℚ) / (b : ℚ))) ≤ (WORLD_RANGE : ℚ)) ∧
    (((clampW (snapInt flag ((a : ℚ) / (b : ℚ)))).den : ℤ)) ∣ b ∧
    (flag = true → (clampW (snapInt flag ((a : ℚ) / (b : ℚ)))).den = 1) := by
  refine ⟨clampW_mem _, ?_, ?_⟩
  · rcases clampW_cases (snapInt flag ((a : ℚ) / (b : ℚ))) with h | h | h <;> rw [h]
    · cases flag
      · simpa [snapInt] using div_den_dvd a b
      · simp [snapInt]
    · simp [den_negWR]
    · simp [den_posWR]
  · intro hf
    subst hf
    rcases clampW_cases (snapInt true ((a : ℚ) / (b : ℚ))) with h | h | h <;> rw [h]
    · simp [snapInt]
    · exact den_negWR
    · exact den_posWR

/-- Claim C7: for all integer pixel coordinates and positive integer
pixels-per-unit scale, `screen_to_world` (the source's `pixelToWorld`) is
total (it is a Lean function, so it cannot raise), both result coordinates
lie in `[-WORLD_RANGE, WORLD_RANGE]`, each coordinate's reduced denominator
divides `2 * px_per_unit`, and when the snap-to-integer toggle is on each
denominator is 1. -/
theorem c7_screen_to_world_bounds (s : AppState) (sx sy : ℤ) (hp : 0 < s.px_per_unit) :
    (-(WORLD_RANGE : ℚ) ≤ (screen_to_world s sx sy).1 ∧
      (screen_to_world s sx sy).1 ≤ (WORLD_RANGE : ℚ) ∧
      -(WORLD_RANGE : ℚ) ≤ (screen_to_world s sx sy).2 ∧
      (screen_to_world s sx sy).2 ≤ (WORLD_RANGE : ℚ)) ∧
    ((((screen_to_world s sx sy).1.den : ℤ)) ∣ 2 * s.px_per_unit ∧
      (((screen_to_world s sx sy).2.den : ℤ)) ∣ 2 * s.px_per_unit) ∧
    (s.snap_to_integer = true →
      (screen_to_world s sx sy).1.den = 1 ∧ (screen_to_world s sx sy).2.den = 1) := by
  have hx : (screen_to_world s sx sy).1 =
      clampW (snapInt s.snap_to_integer
        (((2 * sx - max s.w 2 : ℤ) : ℚ) / ((2 * s.px_per_unit : ℤ) : ℚ))) := rfl
  have hy : (screen_to_world s sx sy).2 =
      clampW (snapInt s.snap_to_integer
        (((max s.h 2 - 2 * sy : ℤ) : ℚ) / ((2 * s.px_per_unit : ℤ) : ℚ))) := rfl
  have Hx := c7_coord s.snap_to_integer (2 * sx - max s.w 2) (2 * s.px_per_unit)
  have Hy := c7_coord s.snap_to_integer (max s.h 2 - 2 * sy) (2 * s.px_per_unit)
  rw [hx, hy]
  exact ⟨⟨Hx.1.1, Hx.1.2, Hy.1.1, Hy.1.2⟩, ⟨Hx.2.1, Hy.2.1⟩,
    fun hf => ⟨Hx.2.2 hf, Hy.2.2 hf⟩⟩

/-- Witness for C7: the theorem applied to the startup state of a 900 × 680
canvas (scale 10) at the concrete pixel `(123, 45)`. -/
theorem c7_witness :
    0 < ex_s0.px_per_unit ∧
    ((-(WORLD_RANGE : ℚ) ≤ (screen_to_world ex_s0 123 45).1 ∧
      (screen_to_world ex_s0 123 45).1 ≤ (WORLD_RANGE : ℚ) ∧
      -(WORLD_RANGE : ℚ) ≤ (screen_to_world ex_s0 123 45).2 ∧
      (screen_to_world ex_s0 123 45).2 ≤ (WORLD_RANGE : ℚ)) ∧
    ((((screen_to_world ex_s0 123 45).1.den : ℤ)) ∣ 2 * ex_s0.px_per_unit ∧
      (((screen_to_world ex_s0 123 45).2.den : ℤ)) ∣ 2 * ex_s0.px_per_unit) ∧
    (ex_s0.snap_to_integer = true →
      (screen_to_world ex_s0 123 45).1.den = 1 ∧ (screen_to_world ex_s0 123 45).2.den = 1)) :=
  ⟨of_decide_eq_true (by with_unfolding_all rfl),
    c7_screen_to_world_bounds ex_s0 123 45 (of_decide_eq_true (by with_unfolding_all rfl))⟩

/-- Claim C3 (amended): restoring a snapshot reproduces exactly the ten
captured fields: mode, pending point, the three collections, the three id
counters, and the grid and chain flags.  The snap-to-integer flag is NOT
captured (see the counterexample). -/
theorem c3_snapshot_restores_captured_fields (s t : AppState) :
    (restore_state s (snapshot t)).mode = t.mode ∧
    (restore_state s (snapshot t)).pending_p0 = t.pending_p0 ∧
    (restore_state s (snapshot t)).segments = t.segments ∧
    (restore_state s (snapshot t)).special_points = t.special_points ∧
    (restore_state s (snapshot t)).punctures = t.punctures ∧
    (restore_state s (snapshot t)).next_seg_id = t.next_seg_id ∧
    (restore_state s (snapshot t)).next_sp_id = t.next_sp_id ∧
    (restore_state s (snapshot t)).next_puncture_id = t.next_puncture_id ∧
    (restore_state s (snapshot t)).grid_on = t.grid_on ∧
    (restore_state s (snapshot t)).chain_mode = t.chain_mode :=
  ⟨rfl, rfl, rfl, rfl, rfl, rfl, rfl, rfl, rfl, rfl⟩

/-- Counterexample to claim C3 as stated: a snapshot does not capture the
snap-to-integer toggle, so restoring does not reproduce it.  Concretely:
from startup (snap on), add a puncture, toggle snap off, then undo.  The
undo restores the startup snapshot (mode and punctures come back), but the
snap flag stays off even though it was on in the state the snapshot was
taken from. -/
theorem c3_counterexample :
    ex_s0.snap_to_integer = true ∧
    (applyOps ex_s0 [Op.keyMode Mode.puncture, Op.click 450 340, Op.keySnap, Op.keyUndo]).mode
      = ex_s0.mode ∧
    (applyOps ex_s0 [Op.keyMode Mode.puncture, Op.click 450 340, Op.keySnap, Op.keyUndo]).punctures
      = ex_s0.punctures ∧
    (applyOps ex_s0 [Op.keyMode Mode.puncture, Op.click 450 340, Op.keySnap, Op.keyUndo]).snap_to_integer
      = false :=
  of_decide_eq_true (by with_unfolding_all rfl)

/-- Claim C10: toggling the grid, toggling chain mode, toggling
snap-to-integer, and switching the interaction mode never touch the
`history` or `future` stacks, so none of them is an individually undoable
step. -/
theorem c10_toggles_preserve_history (s : AppState) (m : Mode) :
    (toggle_grid s).history = s.history ∧ (toggle_grid s).future = s.future ∧
    (toggle_chain s).history = s.history ∧ (toggle_chain s).future = s.future ∧
    (toggle_snap s).history = s.history ∧ (toggle_snap s).future = s.future ∧
    (set_mode s m).history = s.history ∧ (set_mode s m).future = s.future := by
  refine ⟨rfl, rfl, ?_, ?_, rfl, rfl, ?_, ?_⟩ <;>
    · simp only [toggle_chain, set_mode]
      repeat' split
      all_goals rfl

/-- Counterexample to claim C1 as stated: a reachable trace in which the
chain-mode placement path appends a zero-length segment.  From startup,
build segment L1 from (0,0) to (1,1), turn chain mode on (pending p0 is
forced to L1's p1 = (1,1)), then click on the pixel of (1,1): endpoint
snapping resolves p1 to (1,1), and the chain path appends L2 with
p0 = p1 = (1,1) — no degeneracy check runs on this path. -/
theorem c1_counterexample :
    (applyOps ex_s0
        [Op.click 450 340, Op.click 460 330, Op.keyChain, Op.click 460 330]).segments.map
      (fun g => (g.p0, g.p1)) =
    [(((0 : ℚ), (0 : ℚ)), ((1 : ℚ), (1 : ℚ))), (((1 : ℚ), (1 : ℚ)), ((1 : ℚ), (1 : ℚ)))] :=
  of_decide_eq_true (by with_unfolding_all rfl)

/-- Counterexample to claim C2 as stated: `reset` sets `next_seg_id` back
to 1, so the first segment added after a reset receives id 1 ("L1") again —
an id that was already issued before the reset and is not strictly greater
than it. -/
theorem c2_counterexample :
    (applyOps ex_s0 [Op.click 450 340, Op.click 460 330]).segments.map (fun g => g.id) = [1] ∧
    (applyOps ex_s0 [Op.click 450 340, Op.click 460 330, Op.keyReset]).next_seg_id = 1 ∧
    (applyOps ex_s0
        [Op.click 450 340, Op.click 460 330, Op.keyReset,
         Op.click 450 340, Op.click 460 330]).segments.map (fun g => g.id) = [1] :=
  of_decide_eq_true (by with_unfolding_all rfl)

/-- Counterexample to claim C4 as stated: starting in puncture mode, the
two successful mutating operations "addPuncture" then "reset" followed by
two `undo` calls do NOT return to the initial state: `reset` records two
snapshots (pre- and post-reset), so the second undo only consumes the
duplicated pre-reset snapshot and the puncture is still present. -/
theorem c4_counterexample :
    successful_mutating_click c4_s0 450 340 = true ∧
    c4_s0.punctures.length = 0 ∧
    (undoN 2 (applyOps c4_s0 [Op.click 450 340, Op.keyReset])).punctures.length = 1 :=
  of_decide_eq_true (by with_unfolding_all rfl)

/-- Counterexample to claim C5 as stated: the non-chain segment-placement
path pushes its history snapshot BEFORE clearing `pending_p0`, so after
add-segment / undo / redo the restored state has the stale pending point
`(0,0)`, while the state that existed immediately before the undo had no
pending point.  Redo therefore does not restore exactly the pre-undo
state. -/
theorem c5_counterexample :
    (applyOps ex_s0 [Op.click 450 340, Op.click 460 330]).pending_p0 = none ∧
    (redo (undo (applyOps ex_s0 [Op.click 450 340, Op.click 460 330]))).pending_p0
      = some ((0 : ℚ), (0 : ℚ)) :=
  of_decide_eq_true (by with_unfolding_all rfl)

/-- Counterexample to claim C6 as stated: in chain mode an `addSegment`
attempt whose two endpoints coincide is NOT aborted: the trace of
`c1_counterexample` appends the degenerate segment, consumes id 2, and
records a history snapshot, mutating the store. -/
theorem c6_counterexample :
    (applyOps ex_s0 [Op.click 450 340, Op.click 460 330, Op.keyChain]).segments.length = 1 ∧
    (applyOps ex_s0 [Op.click 450 340, Op.click 460 330, Op.keyChain]).next_seg_id = 2 ∧
    (applyOps ex_s0 [Op.click 450 340, Op.click 460 330, Op.keyChain]).history.length = 2 ∧
    ((applyOps ex_s0
        [Op.click 450 340, Op.click 460 330, Op.keyChain, Op.click 460 330]).segments.getLast?.map
      (fun g => decide (g.p0 = g.p1))) = some true ∧
    (applyOps ex_s0
        [Op.click 450 340, Op.click 460 330, Op.keyChain, Op.click 460 330]).segments.length = 2 ∧
    (applyOps ex_s0
        [Op.click 450 340, Op.click 460 330, Op.keyChain, Op.click 460 330]).next_seg_id = 3 ∧
    (applyOps ex_s0
        [Op.click 450 340, Op.click 460 330, Op.keyChain, Op.click 460 330]).history.length = 3 :=
  of_decide_eq_true (by with_unfolding_all rfl)

/-- When chain mode is off, or on with no segments, `handle_segment_click`
runs the two-click path. -/
lemma segment_click_not_chain (s : AppState) (p : ℚ × ℚ) (sx sy : ℤ)
    (h : ¬ (s.chain_mode = true ∧ s.segments ≠ [])) :
    handle_segment_click s p sx sy = handle_segment_click_nochain s p sx sy := by
  unfold handle_segment_click
  by_cases hc : s.chain_mode = true
  · have hseg : s.segments = [] := by
      by_contra hne
      exact h ⟨hc, hne⟩
    rw [if_pos hc, hseg]
    rfl
  · rw [if_neg hc]

/-- A completed two-click placement whose resolved p1 equals the pending p0
only clears the pending point. -/
lemma nochain_abort (s : AppState) (p : ℚ × ℚ) (sx sy : ℤ) (p0 : ℚ × ℚ)
    (hp : s.pending_p0 = some p0) (he : snap_or s sx sy p = p0) :
    handle_segment_click_nochain s p sx sy = { s with pending_p0 := none } := by
  unfold handle_segment_click_nochain
  rw [hp]
  dsimp only
  rw [if_pos he.symm]

/-- Any segment present after a two-click placement is either an old one or
has distinct endpoints. -/
lemma nochain_segments (s : AppState) (p : ℚ × ℚ) (sx sy : ℤ) (g : Segment)
    (hg : g ∈ (handle_segment_click_nochain s p sx sy).segments) :
    g ∈ s.segments ∨ g.p0 ≠ g.p1 := by
  unfold handle_segment_click_nochain at hg
  split at hg
  · exact Or.inl hg
  · next p0 heq =>
    dsimp only at hg
    split at hg
    · exact Or.inl hg
    · next hne =>
      dsimp only [push_state] at hg
      rcases List.mem_append.1 hg with h1 | h1
      · exact Or.inl h1
      · have hgs : g = { id := s.next_seg_id, p0 := p0, p1 := snap_or s sx sy p } := by
          simpa using h1
        right
        rw [hgs]
        simpa using hne
  -- (the push only touches the stacks, so the membership above is in
  -- s.segments ++ [new segment])

/-- `handle_point_click` never touches the segments collection or the
segment-id counter. -/
lemma point_click_keeps (s : AppState) (q : ℚ × ℚ) :
    (handle_point_click s q).segments = s.segments ∧
    (handle_point_click s q).next_seg_id = s.next_seg_id := by
  unfold handle_point_click
  repeat' split
  all_goals exact ⟨rfl, rfl⟩

/-- `handle_puncture_click` never touches the segments collection or the
segment-id counter. -/
lemma puncture_click_keeps (s : AppState) (p : ℚ × ℚ) :
    (handle_puncture_click s p).segments = s.segments ∧
    (handle_puncture_click s p).next_seg_id = s.next_seg_id :=
  ⟨rfl, rfl⟩

/-- Claim C1 (amended): the two-click (non-chain) placement path never
appends a segment with equal endpoints — any segment present after a click
outside the chain path is either a previously present one or has
`p0 ≠ p1`.  (The chain path violates this; see the counterexample.) -/
theorem c1_nochain_no_degenerate (s : AppState) (sx sy : ℤ)
    (h : ¬ (s.chain_mode = true ∧ s.segments ≠ [])) :
    ∀ g ∈ (on_click s sx sy).segments, g ∈ s.segments ∨ g.p0 ≠ g.p1 := by
  intro g hg
  unfold on_click at hg
  cases hm : s.mode
  case segment =>
    rw [hm] at hg
    dsimp only at hg
    rw [segment_click_not_chain s _ sx sy h] at hg
    exact nochain_segments s _ sx sy g hg
  case point =>
    rw [hm] at hg
    dsimp only at hg
    rw [(point_click_keeps s _).1] at hg
    exact Or.inl hg
  case puncture =>
    rw [hm] at hg
    dsimp only at hg
    rw [(puncture_click_keeps s _).1] at hg
    exact Or.inl hg

/-- The state of the concrete traces after placing the pending first click
at world point (0,0). -/
def c6wit_s : AppState := applyOps ex_s0 [Op.click 450 340]

/-- Witness for C1: the theorem applied to the concrete state with a
pending first click at (0,0), clicked at pixel (460,330). -/
theorem c1_witness :
    (¬ (c6wit_s.chain_mode = true ∧ c6wit_s.segments ≠ [])) ∧
    ∀ g ∈ (on_click c6wit_s 460 330).segments, g ∈ c6wit_s.segments ∨ g.p0 ≠ g.p1 :=
  ⟨of_decide_eq_true (by with_unfolding_all rfl),
    c1_nochain_no_degenerate c6wit_s 460 330 (of_decide_eq_true (by with_unfolding_all rfl))⟩

/-- Claim C6 (amended): when a two-click (non-chain) `addSegment` attempt
resolves its second click to a point equal to the pending p0, the operation
is aborted: no collection is mutated, no id counter is incremented, no
history snapshot is recorded, and the future stack is untouched; only the
pending point is cleared.  (The chain-mode path performs no such check; see
the counterexample.) -/
theorem c6_degenerate_abort (s : AppState) (sx sy : ℤ) (p0 : ℚ × ℚ)
    (hm : s.mode = Mode.segment)
    (hnc : ¬ (s.chain_mode = true ∧ s.segments ≠ []))
    (hp : s.pending_p0 = some p0)
    (he : snap_or s sx sy (screen_to_world s sx sy) = p0) :
    (on_click s sx sy).segments = s.segments ∧
    (on_click s sx sy).special_points = s.special_points ∧
    (on_click s sx sy).punctures = s.punctures ∧
    (on_click s sx sy).next_seg_id = s.next_seg_id ∧
    (on_click s sx sy).next_sp_id = s.next_sp_id ∧
    (on_click s sx sy).next_puncture_id = s.next_puncture_id ∧
    (on_click s sx sy).history = s.history ∧
    (on_click s sx sy).future = s.future ∧
    (on_click s sx sy).pending_p0 = none := by
  have hres : on_click s sx sy = { s with pending_p0 := none } := by
    unfold on_click
    rw [hm]
    dsimp only
    rw [segment_click_not_chain s _ sx sy hnc, nochain_abort s _ sx sy p0 hp he, hm]
  rw [hres]
  exact ⟨rfl, rfl, rfl, rfl, rfl, rfl, rfl, rfl, rfl⟩

/-- Witness for C6: clicking pixel (450,340) again while the pending p0 is
(0,0) resolves p1 to (0,0) and aborts, leaving the whole store, counters
and stacks unchanged. -/
theorem c6_witness :
    (on_click c6wit_s 450 340).segments = c6wit_s.segments ∧
    (on_click c6wit_s 450 340).special_points = c6wit_s.special_points ∧
    (on_click c6wit_s 450 340).punctures = c6wit_s.punctures ∧
    (on_click c6wit_s 450 340).next_seg_id = c6wit_s.next_seg_id ∧
    (on_click c6wit_s 450 340).next_sp_id = c6wit_s.next_sp_id ∧
    (on_click c6wit_s 450 340).next_puncture_id = c6wit_s.next_puncture_id ∧
    (on_click c6wit_s 450 340).history = c6wit_s.history ∧
    (on_click c6wit_s 450 340).future = c6wit_s.future ∧
    (on_click c6wit_s 450 340).pending_p0 = none :=
  c6_degenerate_abort c6wit_s 450 340 ((0 : ℚ), (0 : ℚ))
    (of_decide_eq_true (by with_unfolding_all rfl))
    (of_decide_eq_true (by with_unfolding_all rfl))
    (of_decide_eq_true (by with_unfolding_all rfl))
    (of_decide_eq_true (by with_unfolding_all rfl))

/-- Appending a fresh segment carrying the current counter value preserves
the id discipline. -/
lemma append_preserves_segIdInv (s : AppState) (q0 q1 : ℚ × ℚ) (hinv : segIdInv s) :
    (∀ g ∈ s.segments ++ [({ id := s.next_seg_id, p0 := q0, p1 := q1 } : Segment)],
        g.id < s.next_seg_id + 1) ∧
    (s.segments ++ [({ id := s.next_seg_id, p0 := q0, p1 := q1 } : Segment)]).Pairwise
      (fun a b => a.id < b.id) := by
  obtain ⟨h1, h2⟩ := hinv
  constructor
  · intro g hg
    rcases List.mem_append.1 hg with h | h
    · exact Nat.lt_succ_of_lt (h1 g h)
    · have : g = { id := s.next_seg_id, p0 := q0, p1 := q1 } := by simpa using h
      rw [this]
      exact Nat.lt_succ_self _
  · refine List.pairwise_append.2 ⟨h2, List.pairwise_singleton _ _, ?_⟩
    intro a ha b hb
    have : b = { id := s.next_seg_id, p0 := q0, p1 := q1 } := by simpa using hb
    rw [this]
    exact h1 a ha

/-- The two-click path preserves the id discipline and only ever appends. -/
lemma nochain_case (s : AppState) (p : ℚ × ℚ) (sx sy : ℤ) (hinv : segIdInv s) :
    segIdInv (handle_segment_click_nochain s p sx sy) ∧
    ∃ rest, (handle_segment_click_nochain s p sx sy).segments = s.segments ++ rest := by
  unfold handle_segment_click_nochain
  split
  · exact ⟨⟨hinv.1, hinv.2⟩, [], by simp⟩
  · next p0 heq =>
    dsimp only
    split
    · exact ⟨⟨hinv.1, hinv.2⟩, [], by simp⟩
    · next hne =>
      dsimp only [push_state]
      exact ⟨⟨(append_preserves_segIdInv s _ _ hinv).1,
          (append_preserves_segIdInv s _ _ hinv).2⟩,
        [{ id := s.next_seg_id, p0 := p0, p1 := snap_or s sx sy p }], rfl⟩

/-- Every interaction other than reset, undo and redo preserves the
segment-id discipline and only ever appends to the segments list. -/
lemma okOp_segments (s : AppState) (op : Op) (hok : okOp op = true) (hinv : segIdInv s) :
    segIdInv (applyOp s op) ∧ ∃ rest, (applyOp s op).segments = s.segments ++ rest := by
  cases op with
  | click sx sy =>
    have hoc : applyOp s (Op.click sx sy) = on_click s sx sy := rfl
    cases hm : s.mode
    case point =>
      have e : on_click s sx sy = handle_point_click s (screen_to_world s sx sy) := by
        unfold on_click
        rw [hm]
      rw [hoc, e]
      obtain ⟨e1, e2⟩ := point_click_keeps s (screen_to_world s sx sy)
      exact ⟨⟨by rw [e1, e2]; exact hinv.1, by rw [e1]; exact hinv.2⟩, [], by rw [e1, List.append_nil]⟩
    case puncture =>
      have e : on_click s sx sy = handle_puncture_click s (screen_to_world s sx sy) := by
        unfold on_click
        rw [hm]
      rw [hoc, e]
      obtain ⟨e1, e2⟩ := puncture_click_keeps s (screen_to_world s sx sy)
      exact ⟨⟨by rw [e1, e2]; exact hinv.1, by rw [e1]; exact hinv.2⟩, [], by rw [e1, List.append_nil]⟩
    case segment =>
      have e : on_click s sx sy = handle_segment_click s (screen_to_world s sx sy) sx sy := by
        unfold on_click
        rw [hm]
      rw [hoc, e]
      unfold handle_segment_click
      by_cases hc : s.chain_mode = true
      · rw [if_pos hc]
        split
        · next lastSeg heq =>
          dsimp only [push_state]
          refine ⟨⟨?_, ?_⟩,
            [Segment.mk s.next_seg_id lastSeg.p1 (snap_or s sx sy (screen_to_world s sx sy)) "#111827"], rfl⟩
          · exact (append_preserves_segIdInv s _ _ hinv).1
          · exact (append_preserves_segIdInv s _ _ hinv).2
        · exact nochain_case s _ sx sy hinv
      · rw [if_neg hc]
        exact nochain_case s _ sx sy hinv
  | keyMode m =>
    show segIdInv (set_mode s m) ∧ ∃ rest, (set_mode s m).segments = s.segments ++ rest
    have e1 : (set_mode s m).segments = s.segments := by
      simp only [set_mode]
      split
      · split <;> rfl
      · rfl
    have e2 : (set_mode s m).next_seg_id = s.next_seg_id := by
      simp only [set_mode]
      split
      · split <;> rfl
      · rfl
    exact ⟨⟨by rw [e1, e2]; exact hinv.1, by rw [e1]; exact hinv.2⟩, [], by rw [e1, List.append_nil]⟩
  | keyGrid =>
    exact ⟨⟨hinv.1, hinv.2⟩, [], by simp [applyOp, toggle_grid]⟩
  | keyChain =>
    show segIdInv (toggle_chain s) ∧ ∃ rest, (toggle_chain s).segments = s.segments ++ rest
    have e1 : (toggle_chain s).segments = s.segments := by
      simp only [toggle_chain]
      split
      · split <;> rfl
      · rfl
    have e2 : (toggle_chain s).next_seg_id = s.next_seg_id := by
      simp only [toggle_chain]
      split
      · split <;> rfl
      · rfl
    exact ⟨⟨by rw [e1, e2]; exact hinv.1, by rw [e1]; exact hinv.2⟩, [], by rw [e1, List.append_nil]⟩
  | keySnap =>
    exact ⟨⟨hinv.1, hinv.2⟩, [], by simp [applyOp, toggle_snap]⟩
  | keyReset => exact absurd hok (by simp [okOp])
  | keyUndo => exact absurd hok (by simp [okOp])
  | keyRedo => exact absurd hok (by simp [okOp])

/-- Claim C2 (amended): over any sequence of interactions containing no
reset, undo or redo, the segment-id discipline is preserved and segments
are only appended; together with `segIdInv`, every newly issued id strictly
exceeds every previously issued one. -/
theorem c2_ids_monotone_without_reset (s : AppState) (ops : List Op)
    (hok : ∀ op ∈ ops, okOp op = true) (hinv : segIdInv s) :
    segIdInv (applyOps s ops) ∧ ∃ rest, (applyOps s ops).segments = s.segments ++ rest := by
  induction ops generalizing s with
  | nil => exact ⟨hinv, [], by simp [applyOps]⟩
  | cons op ops ih =>
    have h1 := okOp_segments s op (hok op (by simp)) hinv
    have hApp : applyOps s (op :: ops) = applyOps (applyOp s op) ops := by
      simp [applyOps]
    have h2 := ih (applyOp s op) (fun o ho => hok o (by simp [ho])) h1.1
    refine ⟨by rw [hApp]; exact h2.1, ?_⟩
    obtain ⟨r1, e1⟩ := h1.2
    obtain ⟨r2, e2⟩ := h2.2
    exact ⟨r1 ++ r2, by rw [hApp, e2, e1, List.append_assoc]⟩

/-- Witness for C2: the reset-free trace that builds L1 and then a chained
L2 keeps the id discipline and only appends. -/
theorem c2_witness :
    segIdInv (applyOps ex_s0 [Op.click 450 340, Op.click 460 330, Op.keyChain, Op.click 460 330]) ∧
    ∃ rest,
      (applyOps ex_s0
          [Op.click 450 340, Op.click 460 330, Op.keyChain, Op.click 460 330]).segments =
        ex_s0.segments ++ rest :=
  c2_ids_monotone_without_reset ex_s0
    [Op.click 450 340, Op.click 460 330, Op.keyChain, Op.click 460 330]
    (by
      intro op hop
      simp only [List.mem_cons, List.not_mem_nil, or_false] at hop
      rcases hop with h | h | h | h <;> rw [h] <;> rfl)
    (by
      constructor
      · intro g hg
        exact absurd hg (List.not_mem_nil g)
      · exact List.Pairwise.nil)

/-- Restoring a snapshot makes it the state's snapshot. -/
lemma snapshot_restore (s : AppState) (g : Snapshot) : snapshot (restore_state s g) = g := rfl

/-- A completed two-click placement pushes exactly one snapshot, clears the
future stack, and leaves the un-captured fields unchanged. -/
lemma nochain_shape (s : AppState) (p : ℚ × ℚ) (sx sy : ℤ) (p0 : ℚ × ℚ)
    (hp : s.pending_p0 = some p0) (hne : snap_or s sx sy p ≠ p0) :
    ∃ x, (handle_segment_click_nochain s p sx sy).history = s.history ++ [x] ∧
      (handle_segment_click_nochain s p sx sy).future = [] ∧
      (handle_segment_click_nochain s p sx sy).snap_to_integer = s.snap_to_integer ∧
      (handle_segment_click_nochain s p sx sy).px_per_unit = s.px_per_unit ∧
      (handle_segment_click_nochain s p sx sy).w = s.w ∧
      (handle_segment_click_nochain s p sx sy).h = s.h := by
  unfold handle_segment_click_nochain
  rw [hp]
  dsimp only
  rw [if_neg (fun hq => hne hq.symm)]
  dsimp only [push_state]
  exact ⟨_, rfl, rfl, rfl, rfl, rfl, rfl⟩

/-- A successful mutating click pushes exactly one snapshot, clears the
future stack, and leaves the un-captured fields unchanged. -/
lemma mut_click_shape (s : AppState) (sx sy : ℤ)
    (h : successful_mutating_click s sx sy = true) :
    ∃ x, (on_click s sx sy).history = s.history ++ [x] ∧
      (on_click s sx sy).future = [] ∧
      (on_click s sx sy).snap_to_integer = s.snap_to_integer ∧
      (on_click s sx sy).px_per_unit = s.px_per_unit ∧
      (on_click s sx sy).w = s.w ∧
      (on_click s sx sy).h = s.h := by
  unfold successful_mutating_click at h
  cases hm : s.mode
  case puncture =>
    have e : on_click s sx sy = handle_puncture_click s (screen_to_world s sx sy) := by
      unfold on_click
      rw [hm]
    rw [e]
    unfold handle_puncture_click
    dsimp only [push_state]
    exact ⟨_, rfl, rfl, rfl, rfl, rfl, rfl⟩
  case point =>
    rw [hm] at h
    dsimp only at h
    rw [Bool.and_eq_true] at h
    obtain ⟨hne, hsome⟩ := h
    have hne' : s.segments.isEmpty = false := by
      cases hie : s.segments.isEmpty
      · rfl
      · rw [hie] at hne; exact absurd hne (by simp)
    obtain ⟨b, hb⟩ := Option.isSome_iff_exists.mp hsome
    have e : on_click s sx sy = handle_point_click s (screen_to_world s sx sy) := by
      unfold on_click
      rw [hm]
    rw [e]
    unfold handle_point_click
    rw [if_neg (by simp [hne']), hb]
    dsimp only [push_state]
    exact ⟨_, rfl, rfl, rfl, rfl, rfl, rfl⟩
  case segment =>
    rw [hm] at h
    dsimp only at h
    have e : on_click s sx sy = handle_segment_click s (screen_to_world s sx sy) sx sy := by
      unfold on_click
      rw [hm]
    rw [e]
    unfold handle_segment_click
    unfold seg_click_completes at h
    by_cases hc : (s.chain_mode && ! s.segments.isEmpty) = true
    · rw [Bool.and_eq_true] at hc
      obtain ⟨hcm, hnemp⟩ := hc
      rw [if_pos hcm]
      have hnemp' : s.segments ≠ [] := by
        intro hcon
        rw [hcon] at hnemp
        exact absurd hnemp (by simp)
      obtain ⟨H, lastSeg, hl⟩ : ∃ H lastSeg, s.segments = H ++ [lastSeg] := by
        rcases List.eq_nil_or_concat s.segments with hcon | ⟨H, lastSeg, hcon⟩
        · exact absurd hcon hnemp'
        · exact ⟨H, lastSeg, by rw [hcon, List.concat_eq_append]⟩
      rw [hl, List.getLast?_concat]
      dsimp only [push_state]
      exact ⟨_, rfl, rfl, rfl, rfl, rfl, rfl⟩
    · rw [if_neg hc] at h
      cases hpd : s.pending_p0 with
      | none => rw [hpd] at h; exact absurd h (by simp)
      | some p0 =>
        rw [hpd] at h
        have hne : snap_or s sx sy (screen_to_world s sx sy) ≠ p0 := of_decide_eq_true h
        by_cases hcm : s.chain_mode = true
        · have hemp : s.segments.isEmpty = true := by
            cases hie : s.segments.isEmpty
            · exfalso
              apply hc
              rw [hcm, hie]
              rfl
            · rfl
          have hl : s.segments.getLast? = none := by
            cases hs : s.segments with
            | nil => rfl
            | cons a as => rw [hs] at hemp; exact absurd hemp (by simp)
          rw [if_pos hcm, hl]
          exact nochain_shape s _ sx sy p0 hpd hne
        · rw [if_neg hcm]
          exact nochain_shape s _ sx sy p0 hpd hne

/-- Over a run of successful mutating clicks, the history grows by exactly
one snapshot per click and the un-captured fields never change. -/
lemma goodRun_shape : ∀ (cs : List (ℤ × ℤ)) (s : AppState), goodRun s cs = true →
    ∃ xs : List Snapshot, xs.length = cs.length ∧
      (applyClicks s cs).history = s.history ++ xs ∧
      (applyClicks s cs).snap_to_integer = s.snap_to_integer ∧
      (applyClicks s cs).px_per_unit = s.px_per_unit ∧
      (applyClicks s cs).w = s.w ∧
      (applyClicks s cs).h = s.h := by
  intro cs
  induction cs with
  | nil => exact fun s _ => ⟨[], rfl, by simp [applyClicks], rfl, rfl, rfl, rfl⟩
  | cons c cs ih =>
    intro s h
    simp only [goodRun, Bool.and_eq_true] at h
    obtain ⟨h1, h2⟩ := h
    obtain ⟨x, e1, e2, e3, e4, e5, e6⟩ := mut_click_shape s c.1 c.2 h1
    obtain ⟨xs, l1, f1, f2, f3, f4, f5⟩ := ih (on_click s c.1 c.2) h2
    have hac : applyClicks s (c :: cs) = applyClicks (on_click s c.1 c.2) cs := by
      simp [applyClicks]
    refine ⟨x :: xs, by simp [l1], ?_, ?_, ?_, ?_, ?_⟩
    · rw [hac, f1, e1]
      simp
    · rw [hac, f2, e3]
    · rw [hac, f3, e4]
    · rw [hac, f4, e5]
    · rw [hac, f5, e6]

/-- Unwinding `undo` as many times as there are snapshots stacked on top of
a nonempty base history `H0` pops exactly those snapshots, leaves the
un-captured fields unchanged, and (when at least one undo happens) makes the
last snapshot of `H0` the active state. -/
lemma undoN_unwind : ∀ (xs : List Snapshot) (t : AppState) (H0 : List Snapshot),
    H0 ≠ [] → t.history = H0 ++ xs →
    (undoN xs.length t).history = H0 ∧
    (undoN xs.length t).snap_to_integer = t.snap_to_integer ∧
    (undoN xs.length t).px_per_unit = t.px_per_unit ∧
    (undoN xs.length t).w = t.w ∧
    (undoN xs.length t).h = t.h ∧
    (xs = [] → undoN xs.length t = t) ∧
    (xs ≠ [] → ∀ g, H0.getLast? = some g → snapshot (undoN xs.length t) = g) := by
  intro xs
  induction xs using List.reverseRecOn with
  | nil =>
    intro t H0 hH0 hH
    exact ⟨by simpa using hH, rfl, rfl, rfl, rfl, fun _ => rfl, fun hcon => absurd rfl hcon⟩
  | append_singleton ys y ih =>
    intro t H0 hH0 hH
    have hHapp : t.history = (H0 ++ ys) ++ [y] := by rw [hH, List.append_assoc]
    have hpos : 0 < H0.length := List.length_pos.mpr hH0
    have hlen : ¬ (t.history.length ≤ 1) := by
      rw [hHapp]
      simp only [List.length_append, List.length_singleton]
      omega
    have hne2 : H0 ++ ys ≠ [] := by
      intro hcon
      rcases List.append_eq_nil.mp hcon with ⟨hc1, _⟩
      exact hH0 hc1
    obtain ⟨prev, hprev⟩ : ∃ prev, (H0 ++ ys).getLast? = some prev := by
      rcases List.eq_nil_or_concat (H0 ++ ys) with hcon | ⟨L, b, hcon⟩
      · exact absurd hcon hne2
      · exact ⟨b, by rw [hcon, List.concat_eq_append, List.getLast?_concat]⟩
    have hstep : undo t =
        restore_state { t with history := H0 ++ ys, future := t.future ++ [y] } prev := by
      unfold undo
      rw [if_neg hlen, hHapp, List.getLast?_concat, List.dropLast_concat]
      dsimp only
      rw [hprev]
    have hlen2 : (ys ++ [y]).length = ys.length + 1 := by simp
    have hundoN : undoN (ys ++ [y]).length t = undoN ys.length (undo t) := by
      rw [hlen2]
      rfl
    have hhist : (undo t).history = H0 ++ ys := by rw [hstep]; rfl
    obtain ⟨u1, u2, u3, u4, u5, u6, u7⟩ := ih (undo t) H0 hH0 hhist
    have e2 : (undo t).snap_to_integer = t.snap_to_integer := by rw [hstep]; rfl
    have e3 : (undo t).px_per_unit = t.px_per_unit := by rw [hstep]; rfl
    have e4 : (undo t).w = t.w := by rw [hstep]; rfl
    have e5 : (undo t).h = t.h := by rw [hstep]; rfl
    refine ⟨?_, ?_, ?_, ?_, ?_, ?_, ?_⟩
    · rw [hundoN]; exact u1
    · rw [hundoN, u2, e2]
    · rw [hundoN, u3, e3]
    · rw [hundoN, u4, e4]
    · rw [hundoN, u5, e5]
    · intro hcon
      exact absurd hcon (by simp)
    · intro _ g hg
      rw [hundoN]
      by_cases hys : ys = []
      · subst hys
        show snapshot (undo t) = g
        rw [hstep, snapshot_restore]
        rw [List.append_nil] at hprev
        rw [hg] at hprev
        exact (Option.some_inj.mp hprev).symm
      · exact u7 hys g hg

/-- Claim C4 (amended): for a run of N successful mutating clicks, none of
which is a reset, started from a state whose history top is its own
snapshot (as at startup), N subsequent undo calls restore the entire
session state outside the two stacks — the ten captured fields plus the
snap toggle, scale and canvas size.  (A reset records two snapshots, which
breaks the N-for-N correspondence; see the counterexample.) -/
theorem c4_undo_reverts_mutations (s : AppState) (cs : List (ℤ × ℤ))
    (h1 : goodRun s cs = true) (h2 : s.history.getLast? = some (snapshot s)) :
    stripStacks (undoN cs.length (applyClicks s cs)) = stripStacks s := by
  obtain ⟨xs, hl, hh, hs1, hs2, hs3, hs4⟩ := goodRun_shape cs s h1
  have hH0 : s.history ≠ [] := by
    intro hcon
    rw [hcon] at h2
    exact absurd h2 (by simp)
  obtain ⟨u1, u2, u3, u4, u5, u6, u7⟩ := undoN_unwind xs (applyClicks s cs) s.history hH0 hh
  rw [← hl]
  by_cases hxs : xs = []
  · have hcs : cs = [] := by
      rw [hxs] at hl
      exact List.length_eq_zero.mp hl.symm
    subst hcs
    rw [hxs]
    rfl
  · have hsnap := u7 hxs (snapshot s) h2
    unfold stripStacks
    rw [hsnap, u2, u3, u4, u5, hs1, hs2, hs3, hs4]

/-- A puncture-mode base state used to witness the undo/redo theorems. -/
def c5wit_base : AppState :=
  { mode := Mode.puncture
    pending_p0 := none
    segments := []
    special_points := []
    punctures := []
    next_seg_id := 1
    next_sp_id := 1
    next_puncture_id := 1
    grid_on := true
    chain_mode := false
    snap_to_integer := true
    px_per_unit := 10
    w := 900
    h := 680
    history := []
    future := [] }

/-- The base state with two startup snapshots pushed: its history top equals
its own snapshot and its length is 2. -/
def c5wit : AppState := push_state (push_state c5wit_base)

/-- Witness for C4: two puncture clicks followed by two undo calls restore
the starting session state. -/
theorem c4_witness :
    goodRun c5wit [(450, 340), (200, 200)] = true ∧
    stripStacks (undoN 2 (applyClicks c5wit [(450, 340), (200, 200)])) = stripStacks c5wit :=
  ⟨of_decide_eq_true (by with_unfolding_all rfl),
    c4_undo_reverts_mutations c5wit [(450, 340), (200, 200)]
      (of_decide_eq_true (by with_unfolding_all rfl))
      (of_decide_eq_true (by with_unfolding_all rfl))⟩

/-- `redo` is a no-op on an empty future stack (it only reports the
NothingToRedo status). -/
lemma redo_noop (t : AppState) (hf : t.future = []) : redo t = t := by
  unfold redo
  rw [hf]
  rfl

/-- Claim C5 (amended): (1) when the top history snapshot coincides with the
current state's snapshot, a redo immediately after an undo restores the
entire state exactly (the concrete counterexample shows that after a
two-click segment placement the top snapshot holds a stale pending point,
so this hypothesis is needed); (2) a successful mutating click clears the
future stack, after which redo is a no-op. -/
theorem c5_redo_and_future :
    (∀ s : AppState, 2 ≤ s.history.length → s.history.getLast? = some (snapshot s) →
      redo (undo s) = s) ∧
    (∀ (s : AppState) (sx sy : ℤ), successful_mutating_click s sx sy = true →
      (on_click s sx sy).future = [] ∧ redo (on_click s sx sy) = on_click s sx sy) := by
  constructor
  · intro s hlen htop
    have hne : s.history ≠ [] := by
      intro hc
      rw [hc] at hlen
      exact absurd hlen (by simp)
    obtain ⟨H, a, hH⟩ : ∃ H a, s.history = H ++ [a] := by
      rcases List.eq_nil_or_concat s.history with h | ⟨H, a, h⟩
      · exact absurd h hne
      · exact ⟨H, a, by rw [h, List.concat_eq_append]⟩
    have ha : a = snapshot s := by
      rw [hH, List.getLast?_concat] at htop
      exact Option.some_inj.mp htop
    subst ha
    have hHne : H ≠ [] := by
      intro hc
      rw [hH, hc] at hlen
      exact absurd hlen (by simp)
    obtain ⟨prev, hprev⟩ : ∃ prev, H.getLast? = some prev := by
      rcases List.eq_nil_or_concat H with h | ⟨H', b, h⟩
      · exact absurd h hHne
      · exact ⟨b, by rw [h, List.concat_eq_append, List.getLast?_concat]⟩
    have hlen' : ¬ (s.history.length ≤ 1) := by omega
    have hundo : undo s =
        restore_state { s with history := H, future := s.future ++ [snapshot s] } prev := by
      unfold undo
      rw [if_neg hlen', hH, List.getLast?_concat, List.dropLast_concat]
      dsimp only
      rw [hprev]
    rw [hundo]
    unfold redo
    dsimp only [restore_state]
    rw [List.getLast?_concat, List.dropLast_concat]
    dsimp only [restore_state]
    rw [← hH]
    rfl
  · intro s sx sy h
    obtain ⟨x, e1, e2, e3, e4, e5, e6⟩ := mut_click_shape s sx sy h
    exact ⟨e2, redo_noop _ e2⟩

/-- Witness for C5: in the concrete two-snapshot startup state, undo
followed by redo is the identity, and after a successful puncture click the
future stack is empty and redo is a no-op. -/
theorem c5_witness :
    redo (undo c5wit) = c5wit ∧
    (on_click c5wit 450 340).future = [] ∧
    redo (on_click c5wit 450 340) = on_click c5wit 450 340 :=
  ⟨c5_redo_and_future.1 c5wit (of_decide_eq_true (by with_unfolding_all rfl))
      (of_decide_eq_true (by with_unfolding_all rfl)),
    (c5_redo_and_future.2 c5wit 450 340 (of_decide_eq_true (by with_unfolding_all rfl))).1,
    (c5_redo_and_future.2 c5wit 450 340 (of_decide_eq_true (by with_unfolding_all rfl))).2⟩

/-- The clamp-to-`[0,1]` if-chain of `handle_point_click` equals the
specification's `min`/`max` form. -/
lemma clamp_eq_min_max (a : ℚ) :
    (if a < 0 then (0 : ℚ) else if a > 1 then (1 : ℚ) else a) = min 1 (max 0 a) := by
  rcases lt_or_le a 0 with h1 | h1
  · rw [if_pos h1, max_eq_left h1.le, min_eq_right (by norm_num : (0 : ℚ) ≤ 1)]
  · rw [if_neg (not_lt.mpr h1), max_eq_right h1]
    rcases lt_or_le 1 a with h2 | h2
    · rw [if_pos h2, min_eq_left h2.le]
    · rw [if_neg (not_lt.mpr h2), min_eq_right h2]

/-- Soundness predicate for the accumulator of the projection loop: any
kept candidate comes from the segment list, its direction is nonzero, its
parameter is the clamped exact projection parameter, and its point is
`p0 + t·v`. -/
def projGood (q : ℚ × ℚ) (l0 : List Segment) :
    Option (Segment × ℚ × (ℚ × ℚ) × ℚ) → Prop
  | none => True
  | some b =>
    b.1 ∈ l0 ∧
    dot (b.1.p1.1 - b.1.p0.1, b.1.p1.2 - b.1.p0.2)
        (b.1.p1.1 - b.1.p0.1, b.1.p1.2 - b.1.p0.2) ≠ 0 ∧
    b.2.1 = min 1 (max 0
      (dot (q.1 - b.1.p0.1, q.2 - b.1.p0.2) (b.1.p1.1 - b.1.p0.1, b.1.p1.2 - b.1.p0.2) /
        dot (b.1.p1.1 - b.1.p0.1, b.1.p1.2 - b.1.p0.2)
          (b.1.p1.1 - b.1.p0.1, b.1.p1.2 - b.1.p0.2))) ∧
    b.2.2.1 = (b.1.p0.1 + b.2.1 * (b.1.p1.1 - b.1.p0.1),
               b.1.p0.2 + b.2.1 * (b.1.p1.2 - b.1.p0.2))

/-- A per-segment candidate is sound for `projGood` when the segment has
nonzero direction. -/
lemma projCand_good (s : AppState) (q : ℚ × ℚ) (l0 : List Segment) (seg : Segment)
    (hseg : seg ∈ l0)
    (hvv : dot (seg.p1.1 - seg.p0.1, seg.p1.2 - seg.p0.2)
      (seg.p1.1 - seg.p0.1, seg.p1.2 - seg.p0.2) ≠ 0) :
    projGood q l0 (some (projCand s q seg)) := by
  unfold projCand
  dsimp only
  exact ⟨hseg, hvv, clamp_eq_min_max _, rfl⟩

/-- The projection loop preserves `projGood`. -/
lemma projStep_good (s : AppState) (q : ℚ × ℚ) (l0 : List Segment) :
    ∀ (l : List Segment) (acc : Option (Segment × ℚ × (ℚ × ℚ) × ℚ)),
      (∀ g ∈ l, g ∈ l0) → projGood q l0 acc →
      projGood q l0 (l.foldl (projStep s q) acc) := by
  intro l
  induction l with
  | nil => exact fun acc _ h => h
  | cons seg l ih =>
    intro acc hsub h
    rw [List.foldl_cons]
    apply ih _ (fun g hg => hsub g (List.mem_cons_of_mem _ hg))
    unfold projStep
    dsimp only
    by_cases hvv : dot (seg.p1.1 - seg.p0.1, seg.p1.2 - seg.p0.2)
        (seg.p1.1 - seg.p0.1, seg.p1.2 - seg.p0.2) = 0
    · rw [if_pos hvv]
      exact h
    · rw [if_neg hvv]
      cases acc with
      | none => exact projCand_good s q l0 seg (hsub seg (List.mem_cons_self _ _)) hvv
      | some b =>
        dsimp only
        by_cases hlt : (projCand s q seg).2.2.2 < b.2.2.2
        · rw [if_pos hlt]
          exact projCand_good s q l0 seg (hsub seg (List.mem_cons_self _ _)) hvv
        · rw [if_neg hlt]
          exact h

/-- Claim C8: whenever `handle_point_click` appends a special point, the
selected segment has nonzero direction `v = p1 - p0`, the recorded
parameter is `t = min 1 (max 0 (((q - p0)·v) / (v·v)))` — the exact
rational projection parameter clamped to `[0,1]` — and the recorded point
is `p0 + t·v`.  The two concrete examples of the specification are checked
in the witness. -/
theorem c8_projection_formula (s : AppState) (q : ℚ × ℚ) (sp : SpecialPoint)
    (h : (handle_point_click s q).special_points = s.special_points ++ [sp]) :
    ∃ seg ∈ s.segments,
      sp.seg_id = seg.id ∧
      dot (seg.p1.1 - seg.p0.1, seg.p1.2 - seg.p0.2)
          (seg.p1.1 - seg.p0.1, seg.p1.2 - seg.p0.2) ≠ 0 ∧
      sp.t = min 1 (max 0
        (dot (q.1 - seg.p0.1, q.2 - seg.p0.2) (seg.p1.1 - seg.p0.1, seg.p1.2 - seg.p0.2) /
          dot (seg.p1.1 - seg.p0.1, seg.p1.2 - seg.p0.2)
            (seg.p1.1 - seg.p0.1, seg.p1.2 - seg.p0.2))) ∧
      0 ≤ sp.t ∧ sp.t ≤ 1 ∧
      sp.xy = (seg.p0.1 + sp.t * (seg.p1.1 - seg.p0.1),
               seg.p0.2 + sp.t * (seg.p1.2 - seg.p0.2)) := by
  unfold handle_point_click at h
  by_cases hemp : s.segments.isEmpty = true
  · rw [if_pos hemp] at h
    exfalso
    have := congrArg List.length h
    simp at this
  · rw [if_neg hemp] at h
    cases hb : s.segments.foldl (projStep s q) none with
    | none =>
      rw [hb] at h
      exfalso
      have := congrArg List.length h
      simp at this
    | some b =>
      rw [hb] at h
      dsimp only [push_state] at h
      have hg := projStep_good s q s.segments s.segments none (fun g hg => hg) trivial
      rw [hb] at hg
      obtain ⟨seg, t, xy, d2⟩ := b
      dsimp only at h
      obtain ⟨hmem, hvv, ht, hxy⟩ := hg
      dsimp only at hmem hvv ht hxy
      have hsp : ({ id := s.next_sp_id, seg_id := seg.id, t := t, xy := xy } : SpecialPoint) = sp := by
        simpa using List.append_cancel_left h
      refine ⟨seg, hmem, ?_, hvv, ?_, ?_, ?_, ?_⟩
      · rw [← hsp]
      · rw [← hsp]
        exact ht
      · rw [← hsp]
        show 0 ≤ t
        rw [ht]
        exact le_min (by norm_num) (le_max_left 0 _)
      · rw [← hsp]
        show t ≤ 1
        rw [ht]
        exact min_le_left 1 _
      · rw [← hsp]
        show xy = _
        exact hxy

/-- Witness for C8: the two concrete projection examples of the
specification — projecting (2,1) onto (0,0)-(4,0) gives t = 1/2 and point
(2,0); projecting (-5,-5) onto (0,0)-(10,10) clamps to t = 0 and point
(0,0) — together with the theorem applied to the first example. -/
theorem c8_witness :
    ((handle_point_click exSt1 (2, 1)).special_points.map (fun sp => (sp.t, sp.xy)) =
      [((1/2 : ℚ), ((2 : ℚ), (0 : ℚ)))]) ∧
    ((handle_point_click exSt2 (-5, -5)).special_points.map (fun sp => (sp.t, sp.xy)) =
      [((0 : ℚ), ((0 : ℚ), (0 : ℚ)))]) ∧
    (∃ seg ∈ exSt1.segments,
      (1 : ℕ) = seg.id ∧
      dot (seg.p1.1 - seg.p0.1, seg.p1.2 - seg.p0.2)
          (seg.p1.1 - seg.p0.1, seg.p1.2 - seg.p0.2) ≠ 0 ∧
      (1/2 : ℚ) = min 1 (max 0
        (dot ((2 : ℚ) - seg.p0.1, (1 : ℚ) - seg.p0.2)
            (seg.p1.1 - seg.p0.1, seg.p1.2 - seg.p0.2) /
          dot (seg.p1.1 - seg.p0.1, seg.p1.2 - seg.p0.2)
            (seg.p1.1 - seg.p0.1, seg.p1.2 - seg.p0.2))) ∧
      (0 : ℚ) ≤ 1/2 ∧ (1/2 : ℚ) ≤ 1 ∧
      ((2 : ℚ), (0 : ℚ)) = (seg.p0.1 + 1/2 * (seg.p1.1 - seg.p0.1),
               seg.p0.2 + 1/2 * (seg.p1.2 - seg.p0.2))) :=
  ⟨of_decide_eq_true (by with_unfolding_all rfl),
    of_decide_eq_true (by with_unfolding_all rfl),
    c8_projection_formula exSt1 (2, 1) ({ id := 1, seg_id := 1, t := 1/2, xy := (2, 0) })
      (of_decide_eq_true (by with_unfolding_all rfl))⟩

/-- Equation lemma: stepping the snap loop from an empty accumulator. -/
lemma snapStep_none (s : AppState) (sx sy : ℤ) (e : (ℚ × ℚ) × EndLabel) :
    snapStep s sx sy none e = some (e.1, e.2, d2at s sx sy e) := rfl

/-- Equation lemma: stepping the snap loop keeps the first strictly smaller
candidate. -/
lemma snapStep_some (s : AppState) (sx sy : ℤ) (b : (ℚ × ℚ) × EndLabel × ℚ)
    (e : (ℚ × ℚ) × EndLabel) :
    snapStep s sx sy (some b) e =
      if d2at s sx sy e < b.2.2 then some (e.1, e.2, d2at s sx sy e) else some b := rfl

/-- The endpoints list is empty exactly when the store has no segments. -/
lemma list_endpoints_eq_nil (segs : List Segment) :
    list_endpoints segs = [] ↔ segs = [] := by
  cases segs <;> simp [list_endpoints]

/-- Characterization of the snap loop started from a kept candidate `b`:
the result is `b` itself (when nothing beats it strictly) or the first
element strictly beating everything before it and not strictly beaten
afterwards. -/
lemma snapFold_some (s : AppState) (sx sy : ℤ) :
    ∀ (l : List ((ℚ × ℚ) × EndLabel)) (b : (ℚ × ℚ) × EndLabel × ℚ),
      ∃ b', l.foldl (snapStep s sx sy) (some b) = some b' ∧
        ((b' = b ∧ ∀ e ∈ l, b.2.2 ≤ d2at s sx sy e) ∨
          (∃ pre w suf, l = pre ++ w :: suf ∧
            b' = (w.1, w.2, d2at s sx sy w) ∧
            d2at s sx sy w < b.2.2 ∧
            (∀ e ∈ pre, d2at s sx sy w < d2at s sx sy e) ∧
            (∀ e ∈ suf, d2at s sx sy w ≤ d2at s sx sy e))) := by
  intro l
  induction l with
  | nil => exact fun b => ⟨b, rfl, Or.inl ⟨rfl, by simp⟩⟩
  | cons x l ih =>
    intro b
    rw [List.foldl_cons, snapStep_some]
    by_cases hx : d2at s sx sy x < b.2.2
    · rw [if_pos hx]
      obtain ⟨b', hb', hcase⟩ := ih (x.1, x.2, d2at s sx sy x)
      refine ⟨b', hb', Or.inr ?_⟩
      rcases hcase with ⟨hbb, hall⟩ | ⟨pre, w, suf, heq, hbw, hlt, hpre, hsuf⟩
      · exact ⟨[], x, l, by simp, hbb, hx, by simp, fun e he => hall e he⟩
      · refine ⟨x :: pre, w, suf, by rw [heq, List.cons_append], hbw, lt_trans hlt hx, ?_, hsuf⟩
        intro e he
        rcases List.mem_cons.mp he with he | he
        · rw [he]
          exact hlt
        · exact hpre e he
    · rw [if_neg hx]
      obtain ⟨b', hb', hcase⟩ := ih b
      refine ⟨b', hb', ?_⟩
      rcases hcase with ⟨hbb, hall⟩ | ⟨pre, w, suf, heq, hbw, hlt, hpre, hsuf⟩
      · refine Or.inl ⟨hbb, ?_⟩
        intro e he
        rcases List.mem_cons.mp he with he | he
        · rw [he]
          exact not_lt.mp hx
        · exact hall e he
      · refine Or.inr ⟨x :: pre, w, suf, by rw [heq, List.cons_append], hbw, hlt, ?_, hsuf⟩
        intro e he
        rcases List.mem_cons.mp he with he | he
        · rw [he]
          exact lt_of_lt_of_le hlt (not_lt.mp hx)
        · exact hpre e he

/-- Characterization of the snap loop started from the empty accumulator:
it returns none exactly on the empty list, and otherwise the first element
achieving the minimal squared pixel distance. -/
lemma snapFold_none (s : AppState) (sx sy : ℤ) :
    ∀ l : List ((ℚ × ℚ) × EndLabel),
      (l.foldl (snapStep s sx sy) none = none ↔ l = []) ∧
      (∀ b', l.foldl (snapStep s sx sy) none = some b' →
        ∃ pre w suf, l = pre ++ w :: suf ∧
          b' = (w.1, w.2, d2at s sx sy w) ∧
          (∀ e ∈ pre, d2at s sx sy w < d2at s sx sy e) ∧
          (∀ e ∈ l, d2at s sx sy w ≤ d2at s sx sy e)) := by
  intro l
  cases l with
  | nil => exact ⟨by simp, fun b' h => by simp at h⟩
  | cons x l =>
    obtain ⟨b', hb', hcase⟩ := snapFold_some s sx sy l (x.1, x.2, d2at s sx sy x)
    constructor
    · rw [List.foldl_cons, snapStep_none, hb']
      simp
    · intro b'' hb''
      rw [List.foldl_cons, snapStep_none, hb'] at hb''
      obtain rfl : b' = b'' := Option.some_inj.mp hb''
      rcases hcase with ⟨hbb, hall⟩ | ⟨pre, w, suf, heq, hbw, hlt, hpre, hsuf⟩
      · refine ⟨[], x, l, by simp, hbb, by simp, ?_⟩
        intro e he
        rcases List.mem_cons.mp he with he | he
        · rw [he]
        · exact hall e he
      · refine ⟨x :: pre, w, suf, by rw [heq, List.cons_append], hbw, ?_, ?_⟩
        · intro e he
          rcases List.mem_cons.mp he with he | he
          · rw [he]
            exact hlt
          · exact hpre e he
        · intro e he
          rcases List.mem_cons.mp he with he | he
          · rw [he]
            exact hlt.le
          · rw [heq] at he
            rcases List.mem_append.mp he with he | he
            · exact (hpre e he).le
            · rcases List.mem_cons.mp he with he | he
              · rw [he]
              · exact hsuf e he

/-- Claim C9: `nearest_endpoint_within_px` returns none exactly when the
store is empty or every endpoint's squared pixel distance to the query
exceeds the squared radius (i.e., the nearest endpoint is out of range),
and any returned endpoint is within the radius and is the EARLIEST endpoint
in enumeration order — segments in insertion order, p0 before p1 — whose
squared distance is strictly below every earlier endpoint's and no larger
than every endpoint's.  In particular, when several endpoints are
equidistant and within radius, the p0 of the lowest-id tied segment wins
over that segment's p1 and over all later segments' endpoints. -/
theorem c9_nearest_endpoint (s : AppState) (sx sy : ℤ) (r : ℚ) (hr : 0 ≤ r) :
    ((nearest_endpoint_within_px s sx sy r = none) ↔
      (s.segments = [] ∨ ∀ e ∈ list_endpoints s.segments, r ^ 2 < d2at s sx sy e)) ∧
    (∀ pt lab d, nearest_endpoint_within_px s sx sy r = some (pt, lab, d) →
      d ≤ r ^ 2 ∧ d = d2at s sx sy (pt, lab) ∧
      ∃ pre suf, list_endpoints s.segments = pre ++ (pt, lab) :: suf ∧
        (∀ e ∈ pre, d < d2at s sx sy e) ∧
        (∀ e ∈ list_endpoints s.segments, d ≤ d2at s sx sy e)) := by
  obtain ⟨hiff, hchar⟩ := snapFold_none s sx sy (list_endpoints s.segments)
  unfold nearest_endpoint_within_px
  cases hf : (list_endpoints s.segments).foldl (snapStep s sx sy) none with
  | none =>
    have hnil : list_endpoints s.segments = [] := hiff.mp hf
    have hsegs : s.segments = [] := (list_endpoints_eq_nil _).mp hnil
    refine ⟨⟨fun _ => Or.inl hsegs, fun _ => rfl⟩, ?_⟩
    intro pt lab d hsome
    exact absurd hsome (by simp)
  | some b =>
    obtain ⟨pre, w, suf, heq, hbw, hpre, hall⟩ := hchar b hf
    dsimp only
    by_cases hcond : b.2.2 ≤ r ^ 2
    · rw [if_pos ⟨hr, hcond⟩]
      constructor
      · constructor
        · intro hcon
          exact absurd hcon (by simp)
        · intro hrhs
          exfalso
          rcases hrhs with hrhs | hrhs
          · have hnil : list_endpoints s.segments = [] := by
              rw [hrhs]
              rfl
            rw [hnil] at heq
            exact absurd heq.symm (by simp)
          · have hw : w ∈ list_endpoints s.segments := by
              rw [heq]
              exact List.mem_append.mpr (Or.inr (List.mem_cons_self _ _))
            have h1 := hrhs w hw
            have h2 : b.2.2 = d2at s sx sy w := by rw [hbw]
            rw [h2] at hcond
            exact absurd h1 (not_lt.mpr hcond)
      · intro pt lab d hsome
        have hb2 : b = (pt, lab, d) := Option.some_inj.mp hsome
        rw [hb2] at hbw hcond
        have hparts : pt = w.1 ∧ lab = w.2 ∧ d = d2at s sx sy w := by
          simpa [Prod.ext_iff] using hbw
        obtain ⟨hp1, hp2, hp3⟩ := hparts
        have hw : (pt, lab) = w := by rw [hp1, hp2]
        refine ⟨hcond, ?_, pre, suf, ?_, ?_, ?_⟩
        · rw [hw]
          exact hp3
        · rw [hw]
          exact heq
        · intro e he
          rw [hp3]
          exact hpre e he
        · intro e he
          rw [hp3]
          exact hall e he
    · have hcond' : ¬ (0 ≤ r ∧ b.2.2 ≤ r ^ 2) := fun hc => hcond hc.2
      rw [if_neg hcond']
      refine ⟨⟨fun _ => Or.inr ?_, fun _ => rfl⟩, ?_⟩
      · intro e he
        have h1 : r ^ 2 < b.2.2 := not_le.mp hcond
        have h2 : b.2.2 = d2at s sx sy w := by rw [hbw]
        rw [h2] at h1
        exact lt_of_lt_of_le h1 (hall e he)
      · intro pt lab d hsome
        exact absurd hsome (by simp)

/-- The state with the single segment L1 from (0,0) to (1,1), reached by
two clicks from startup; used to witness C9. -/
def c9wit_s : AppState := applyOps ex_s0 [Op.click 450 340, Op.click 460 330]

/-- Witness for C9: clicking on the pixel of endpoint (1,1) finds it at
distance 0 (it is L1.P1, beating L1.P0 at squared distance 200), and the
none-characterization holds at radius `SNAP_PX = 12`. -/
theorem c9_witness :
    nearest_endpoint_within_px c9wit_s 460 330 12 =
      some (((1 : ℚ), (1 : ℚ)), ⟨1, true⟩, 0) ∧
    nearest_endpoint_within_px c9wit_s 100 100 12 = none ∧
    ((nearest_endpoint_within_px c9wit_s 460 330 12 = none) ↔
      (c9wit_s.segments = [] ∨
        ∀ e ∈ list_endpoints c9wit_s.segments, (12 : ℚ) ^ 2 < d2at c9wit_s 460 330 e)) :=
  ⟨of_decide_eq_true (by with_unfolding_all rfl),
    of_decide_eq_true (by with_unfolding_all rfl),
    (c9_nearest_endpoint c9wit_s 460 330 12 (by norm_num)).1⟩

end GuiJW
